import Mathlib

/-!
Verification development for the `naive_backlink` crawler/scorer.

The Python sources under `naive_backlink/` are shallowly embedded below:
pure functions become Lean functions over `String`/`List Char`/`ℚ`,
stateful crawl code becomes explicit state passing with a step relation,
and fallible code returns `Option`/`Except`.  The Python standard-library
routines the sources rely on (`urllib.parse.urlparse`, `urlunparse`,
`urljoin`, `fnmatch.fnmatchcase`, `os.path.splitext`, `str.lower`,
`str.strip`) are modelled faithfully for ASCII inputs, following the
CPython implementations.
-/

namespace NaiveBacklink

/- ===================================================================
   Character and string helpers (ASCII model of Python `str` methods)
   =================================================================== -/

/-- ASCII model of Python `str.lower` applied to a character. -/
def lowerChars (l : List Char) : List Char := l.map Char.toLower

/-- ASCII model of Python `str.lower`. -/
def strLower (s : String) : String := String.mk (lowerChars s.data)

/-- Characters removed by Python `str.strip()` (ASCII whitespace). -/
def isPySpace (c : Char) : Bool :=
  c == ' ' || c == '\t' || c == '\n' || c == '\r' || c == '\x0b' || c == '\x0c'

/-- Model of Python `str.strip()` (no arguments): drop ASCII whitespace
from both ends. -/
def stripChars (l : List Char) : List Char :=
  ((l.dropWhile isPySpace).reverse.dropWhile isPySpace).reverse

def strStrip (s : String) : String := String.mk (stripChars s.data)

/-- `needle` occurs contiguously inside `haystack` (Python `in` on str). -/
def subListOf (needle haystack : List Char) : Bool :=
  haystack.tails.any (fun t => needle.isPrefixOf t)

/-- Python `needle in haystack` for strings. -/
def strContains (haystack needle : String) : Bool :=
  subListOf needle.data haystack.data

/-- Split a character list at the first occurrence of `sep`; `none` when
`sep` does not occur.  Mirrors Python `s.split(sep, 1)`. -/
def splitFirst (sep : Char) : List Char → Option (List Char × List Char)
  | [] => none
  | c :: rest =>
    if c = sep then some ([], rest)
    else match splitFirst sep rest with
      | some (a, b) => some (c :: a, b)
      | none => none

/-- Index of the first occurrence of `c` in `l` at position ≥ `start`
(Python `s.find(c, start)` restricted to found/not-found). -/
def findIdxFrom (c : Char) (l : List Char) (start : Nat) : Option Nat :=
  match (l.drop start).findIdx? (· == c) with
  | some j => some (start + j)
  | none => none

/-- Index of the last occurrence of `c` in `l` (Python `s.rfind(c)`). -/
def rfindIdx (c : Char) (l : List Char) : Option Nat :=
  match l.reverse.findIdx? (· == c) with
  | some j => some (l.length - 1 - j)
  | none => none

/- ===================================================================
   urllib.parse embedding (CPython `urlsplit` / `urlparse` /
   `urlunsplit` / `urlunparse`), specialised to `allow_fragments=True`
   =================================================================== -/

/-- Result type of CPython `urlparse` (six components). -/
structure URLParts where
  scheme : List Char
  netloc : List Char
  path : List Char
  params : List Char
  query : List Char
  fragment : List Char
deriving Repr, DecidableEq

/-- Characters allowed after the first character of a URL scheme
(CPython `scheme_chars`). -/
def isSchemeChar (c : Char) : Bool :=
  c.isAlpha || c.isDigit || c == '+' || c == '-' || c == '.'

/-- WHATWG C0-control-or-space set stripped from the left of a URL by
CPython `urlsplit`. -/
def isC0OrSpace (c : Char) : Bool := c.val ≤ 0x20

/-- Scheme extraction of CPython `urlsplit`: the portion before the first
`':'` is a scheme iff it is nonempty, starts with an ASCII letter and
continues with scheme characters; the scheme is lowercased.  Returns
`(scheme, remainder)`; when no scheme is recognised the input is
returned whole. -/
def splitScheme (l : List Char) : List Char × List Char :=
  match splitFirst ':' l with
  | none => ([], l)
  | some (pre, post) =>
    match pre with
    | [] => ([], l)
    | c0 :: rest =>
      if c0.isAlpha && rest.all isSchemeChar then (lowerChars pre, post)
      else ([], l)

/-- Characters terminating the netloc in CPython `_splitnetloc`. -/
def isNetlocEnd (c : Char) : Bool := c == '/' || c == '?' || c == '#'

/-- Fragment then query split of CPython `urlsplit` (with
`allow_fragments=True`): returns `(path, query, fragment)`. -/
def splitFragQuery (rest : List Char) : List Char × List Char × List Char :=
  let fq := match splitFirst '#' rest with
    | some p => p
    | none => (rest, [])
  let pq := match splitFirst '?' fq.1 with
    | some p => p
    | none => (fq.1, [])
  (pq.1, pq.2, fq.2)

/-- CPython `urlsplit(url, scheme=default)`: returns
`(scheme, netloc, path, query, fragment)`, or `none` for the
`ValueError` raised on an unbalanced bracket in the netloc. -/
def urlsplitChars (default : List Char) (url0 : List Char) :
    Option (List Char × List Char × List Char × List Char × List Char) :=
  let url1 := url0.dropWhile isC0OrSpace
  let url2 := url1.filter (fun c => !(c == '\t' || c == '\r' || c == '\n'))
  let sp := splitScheme url2
  let scheme := if sp.1.isEmpty then default else sp.1
  let url := sp.2
  if url.take 2 = ['/', '/'] then
    let netloc := (url.drop 2).takeWhile (fun c => !isNetlocEnd c)
    let rest := (url.drop 2).dropWhile (fun c => !isNetlocEnd c)
    if (netloc.contains '[' && !netloc.contains ']') ||
       (netloc.contains ']' && !netloc.contains '[') then none
    else
      let pqf := splitFragQuery rest
      some (scheme, netloc, pqf.1, pqf.2.1, pqf.2.2)
  else
    let pqf := splitFragQuery url
    some (scheme, [], pqf.1, pqf.2.1, pqf.2.2)

/-- CPython `urllib.parse._splitparams`: split `;params` off the last
path segment. -/
def splitParams (path : List Char) : List Char × List Char :=
  let i? : Option Nat :=
    if path.contains '/' then
      match rfindIdx '/' path with
      | some r =>
        match findIdxFrom ';' path r with
        | some i => some i
        | none => none
      | none => none
    else findIdxFrom ';' path 0
  match i? with
  | some i => (path.take i, path.drop (i + 1))
  | none => (path, [])

/-- CPython `uses_params`: schemes for which `urlparse` splits
`;params` off the path. -/
def usesParams : List String :=
  ["", "ftp", "hdl", "prospero", "http", "imap", "https", "shttp", "rtsp",
   "rtsps", "rtspu", "sip", "sips", "mms", "sftp", "tel"]

/-- CPython `uses_relative`. -/
def usesRelative : List String :=
  ["", "ftp", "http", "gopher", "nntp", "imap", "wais", "file", "https",
   "shttp", "mms", "prospero", "rtsp", "rtsps", "rtspu", "sftp", "svn",
   "svn+ssh", "ws", "wss"]

/-- CPython `uses_netloc`. -/
def usesNetloc : List String :=
  ["", "ftp", "http", "gopher", "nntp", "telnet", "imap", "wais", "file",
   "mms", "https", "shttp", "snews", "prospero", "rtsp", "rtsps", "rtspu",
   "rsync", "svn", "svn+ssh", "sftp", "nfs", "git", "git+ssh", "ws", "wss"]

/-- CPython `urlparse(url, scheme=default)` over character lists. -/
def urlparseCharsWithDefault (default : List Char) (url : List Char) :
    Option URLParts :=
  match urlsplitChars default url with
  | none => none
  | some (scheme, netloc, path, query, fragment) =>
    if usesParams.contains (String.mk scheme) && path.contains ';' then
      let pp := splitParams path
      some ⟨scheme, netloc, pp.1, pp.2, query, fragment⟩
    else
      some ⟨scheme, netloc, path, [], query, fragment⟩

/-- CPython `urlparse(url)` over character lists. -/
def urlparseChars (url : List Char) : Option URLParts :=
  urlparseCharsWithDefault [] url

/-- CPython (3.11) `urlunsplit`. -/
def urlunsplitChars (scheme netloc url query fragment : List Char) :
    List Char :=
  let url :=
    if !netloc.isEmpty ||
       (!scheme.isEmpty && usesNetloc.contains (String.mk scheme) &&
        url.take 2 ≠ ['/', '/']) then
      let url' := if !url.isEmpty && url.take 1 ≠ ['/'] then '/' :: url else url
      '/' :: '/' :: (netloc ++ url')
    else url
  let url := if !scheme.isEmpty then scheme ++ ':' :: url else url
  let url := if !query.isEmpty then url ++ '?' :: query else url
  let url := if !fragment.isEmpty then url ++ '#' :: fragment else url
  url

/-- CPython `urlunparse` (equivalently `ParseResult.geturl`). -/
def urlunparseChars (p : URLParts) : List Char :=
  let url := if !p.params.isEmpty then p.path ++ ';' :: p.params else p.path
  urlunsplitChars p.scheme p.netloc url p.query p.fragment

/- ===================================================================
   urllib.parse.urljoin
   =================================================================== -/

/-- Python `str.split(sep)` for a single-character separator: every
occurrence splits, empty pieces are kept, and the empty string yields
`[""]`. -/
def splitOnChar (sep : Char) : List Char → List (List Char)
  | [] => [[]]
  | c :: rest =>
    let r := splitOnChar sep rest
    if c = sep then [] :: r
    else match r with
      | h :: t => (c :: h) :: t
      | [] => [[c]]

/-- CPython `urljoin(base, url)` (with `allow_fragments=True`); `none`
models the `ValueError` raised by `urlparse` on an unbalanced bracket
in a netloc. -/
def urljoinChars (base url : List Char) : Option (List Char) :=
  if base.isEmpty then some url
  else if url.isEmpty then some base
  else
    match urlparseChars base with
    | none => none
    | some b =>
      match urlparseCharsWithDefault b.scheme url with
      | none => none
      | some u =>
        if u.scheme ≠ b.scheme ∨ ¬ usesRelative.contains (String.mk u.scheme) then
          some url
        else if usesNetloc.contains (String.mk u.scheme) ∧ ¬ u.netloc.isEmpty then
          some (urlunparseChars u)
        else
          let netloc :=
            if usesNetloc.contains (String.mk u.scheme) then b.netloc else u.netloc
          if u.path.isEmpty ∧ u.params.isEmpty then
            let query := if u.query.isEmpty then b.query else u.query
            some (urlunparseChars ⟨u.scheme, netloc, b.path, b.params, query, u.fragment⟩)
          else
            let baseParts0 := splitOnChar '/' b.path
            let baseParts :=
              if baseParts0.getLast? ≠ some [] then baseParts0.dropLast else baseParts0
            let segments :=
              if u.path.take 1 = ['/'] then splitOnChar '/' u.path
              else
                let segs := baseParts ++ splitOnChar '/' u.path
                match segs with
                | [] => []
                | x :: rest =>
                  match rest.getLast? with
                  | none => [x]
                  | some lastSeg =>
                    x :: (rest.dropLast.filter (fun s => !s.isEmpty)) ++ [lastSeg]
            let resolved := segments.foldl
              (fun acc seg =>
                if seg = ['.', '.'] then acc.dropLast
                else if seg = ['.'] then acc
                else acc ++ [seg]) ([] : List (List Char))
            let resolved :=
              if segments.getLast? = some ['.'] ∨ segments.getLast? = some ['.', '.'] then
                resolved ++ [[]]
              else resolved
            let joined := List.intercalate ['/'] resolved
            let path := if joined.isEmpty then ['/'] else joined
            some (urlunparseChars ⟨u.scheme, netloc, path, u.params, u.query, u.fragment⟩)

/-- CPython `urljoin` over `String`. -/
def urljoin (base url : String) : Option String :=
  (urljoinChars base.data url.data).map String.mk

/- ===================================================================
   link_logic.normalize_url
   =================================================================== -/

/-- `link_logic.normalize_url`: lowercase scheme/netloc, drop the
fragment, trim a single trailing slash (the bare root path becomes
empty); malformed URLs (parse failure) are returned unchanged. -/
def normalize_url (url : String) : String :=
  match urlparseChars url.data with
  | none => url
  | some p =>
    let path :=
      if p.path = ['/'] then []
      else if p.path.getLast? = some '/' ∧ p.path.length > 1 then p.path.dropLast
      else p.path
    String.mk (urlunparseChars
      { p with
        scheme := lowerChars p.scheme
        netloc := lowerChars p.netloc
        path := path
        fragment := [] })

/- ===================================================================
   fnmatch.fnmatchcase embedding
   =================================================================== -/

/-- One member of a shell character class: a literal character or an
inclusive code-point range. -/
inductive ClassItem where
  | lit : Char → ClassItem
  | range : Char → Char → ClassItem
deriving Repr, DecidableEq

/-- Parse a character-class body (negation marker already stripped) into
members: `a-b` forms a range; a leading or trailing hyphen is literal.
Follows the range construction of `fnmatch.translate` for standard
(non-degenerate) classes. -/
def classItems : List Char → List ClassItem
  | a :: '-' :: b :: rest => ClassItem.range a b :: classItems (b :: rest).tail
  | a :: rest => ClassItem.lit a :: classItems rest
  | [] => []

/-- Membership of a character in a parsed class (ranges compare code
points; an inverted range matches nothing). -/
def classMember (items : List ClassItem) (c : Char) : Bool :=
  items.any fun it =>
    match it with
    | ClassItem.lit d => c == d
    | ClassItem.range a b => decide (a ≤ c) && decide (c ≤ b)

/-- Closing-bracket scan of `fnmatch.translate`: given the characters
after `'['`, return the class body and the remainder after `']'`, or
`none` when the class is unterminated (the `'['` is then literal).  A
leading `'!'` and an immediately following `']'` are part of the body. -/
def scanClass (p : List Char) : Option (List Char × List Char) :=
  let start : Nat := if p.head? = some '!' then 1 else 0
  let start : Nat := if p.get? start = some ']' then start + 1 else start
  match findIdxFrom ']' p start with
  | some j => some (p.take j, p.drop (j + 1))
  | none => none

/-- Shell-pattern matcher equivalent to matching `fnmatch.translate pat`
against the whole name: `*` matches any run of characters, `?` any
single character, `[...]`/`[!...]` a (negated) character class, an
unterminated `[` is literal, an empty class body never matches and a
body of just `!` matches any single character.  The `fuel` argument
makes the recursion structural; every recursive call strictly decreases
`pattern.length + name.length` (a class scan never lengthens the
remaining pattern), so the fuel supplied by `globMatch` below cannot
run out. -/
def globMatchF : Nat → List Char → List Char → Bool
  | 0, _, _ => false
  | _ + 1, [], name => name.isEmpty
  | fuel + 1, '*' :: p, name =>
    globMatchF fuel p name ||
      (match name with
       | [] => false
       | _ :: ns => globMatchF fuel ('*' :: p) ns)
  | fuel + 1, '?' :: p, name =>
    (match name with
     | [] => false
     | _ :: ns => globMatchF fuel p ns)
  | fuel + 1, '[' :: p, name =>
    (match scanClass p with
     | none =>
       (match name with
        | '[' :: ns => globMatchF fuel p ns
        | _ => false)
     | some (stuff, rest) =>
       (match name with
        | [] => false
        | c :: ns =>
          let ok :=
            if stuff.isEmpty then false
            else if stuff = ['!'] then true
            else if stuff.head? = some '!' then ! classMember (classItems stuff.tail) c
            else classMember (classItems stuff) c
          ok && globMatchF fuel rest ns))
  | fuel + 1, c :: p, name =>
    (match name with
     | d :: ns => c == d && globMatchF fuel p ns
     | [] => false)

def globMatch (pat name : List Char) : Bool :=
  globMatchF (pat.length + name.length + 1) pat name

/-- CPython `fnmatch.fnmatchcase` (case-sensitive shell-style match of
the whole string). -/
def fnmatchcase (name pat : String) : Bool := globMatch pat.data name.data

/- ===================================================================
   link_logic constants and URL predicates
   =================================================================== -/

/-- `link_logic.EXTENSION_DENYLIST`. -/
def EXTENSION_DENYLIST : List String :=
  [".png", ".jpg", ".jpeg", ".gif", ".webp", ".bmp", ".ico", ".svg", ".avif",
   ".mp4", ".m4v", ".mov", ".webm", ".ogg", ".ogv", ".mp3", ".wav", ".flac",
   ".aac",
   ".pdf", ".zip", ".tar", ".gz", ".tgz", ".bz2", ".xz", ".7z", ".rar",
   ".exe", ".msi", ".dmg", ".iso", ".woff", ".woff2", ".ttf", ".otf",
   ".doc", ".docx", ".xls", ".xlsx", ".ppt", ".pptx",
   ".css", ".js", ".mjs", ".map"]

/-- `link_logic.NON_HTML_REL`: rel values indicating assets, not pages. -/
def NON_HTML_REL : List String :=
  ["icon", "shortcut icon", "apple-touch-icon", "mask-icon", "manifest",
   "preload", "prefetch", "dns-prefetch", "modulepreload", "stylesheet"]

/-- `link_logic.ALLOWED_SCHEMES`. -/
def ALLOWED_SCHEMES : List String := ["http", "https"]

/-- `link_logic._scheme`: lowercased scheme of a URL, `""` on parse
failure (the `except` branch). -/
def _scheme (u : String) : String :=
  match urlparseChars u.data with
  | none => ""
  | some p => String.mk (lowerChars p.scheme)

/-- `link_logic.is_fetchable_url`: scheme ∈ {http, https}. -/
def is_fetchable_url (u : String) : Bool :=
  ALLOWED_SCHEMES.contains (_scheme u)

/-- Extension of `os.path.splitext` (CPython `genericpath._splitext`
with separator `/`): the suffix from the last dot of the final path
segment, empty when that segment consists only of leading dots. -/
def splitextExt (p : List Char) : List Char :=
  match rfindIdx '.' p with
  | none => []
  | some dotIdx =>
    let sepIdx : Int := match rfindIdx '/' p with | some i => (i : Int) | none => -1
    if sepIdx < (dotIdx : Int) then
      let filenameStart := (sepIdx + 1).toNat
      if ((p.drop filenameStart).take (dotIdx - filenameStart)).any (fun c => c ≠ '.') then
        p.drop dotIdx
      else []
    else []

/-- `link_logic._path_ext`: lowercased extension of the URL path, `""`
on parse failure. -/
def _path_ext (u : String) : String :=
  match urlparseChars u.data with
  | none => ""
  | some p => String.mk (splitextExt (lowerChars p.path))

/-- `link_logic.is_probably_html_url`: fetchable and the path extension
is not denylisted. -/
def is_probably_html_url (u : String) : Bool :=
  if ! is_fetchable_url u then false
  else
    let ext := _path_ext u
    if ext ≠ "" && EXTENSION_DENYLIST.contains ext then false
    else true

/-- `link_logic._netloc`: lowercased netloc; `none` models the
`ValueError` this un-guarded `urlparse` call can raise. -/
def _netloc (hostUrl : String) : Option String :=
  (urlparseChars hostUrl.data).map (fun p => String.mk (lowerChars p.netloc))

/- ===================================================================
   link_logic configuration and pattern matching
   =================================================================== -/

/-- `link_logic.SameDomainPolicy`. -/
inductive SameDomainPolicy where
  | follow
  | noSelfDomain
  | noSelfDomainOrSubdomain
deriving Repr, DecidableEq

/-- `link_logic.LogicConfig`.  The optional pattern lists are modelled
as plain lists (the sources immediately coalesce `None` to `[]`). -/
structure LogicConfig where
  max_outlinks : Nat
  trusted_domains : List String
  same_domain_policy : SameDomainPolicy
  use_registrable_domain : Bool
  blacklist_patterns : List String
  whitelist_patterns : List String
  only_whitelist : Bool
deriving Repr, DecidableEq

/-- `link_logic._host_and_hostpath`: lowercased `(host, host+path)` of
the normalized URL, query/fragment ignored; `("", "")` on parse failure
(the `except` branch). -/
def _host_and_hostpath (u : String) : String × String :=
  match urlparseChars (normalize_url u).data with
  | none => ("", "")
  | some p =>
    let host := String.mk (lowerChars p.netloc)
    let path := String.mk (lowerChars (p.path.dropWhile (· = '/')))
    let hostpath := if path ≠ "" then host ++ "/" ++ path else host
    (host, hostpath)

/-- Python `s.replace("/*", "")`. -/
def removeSlashStar : List Char → List Char
  | '/' :: '*' :: rest => removeSlashStar rest
  | c :: rest => c :: removeSlashStar rest
  | [] => []

/-- Python `s.rstrip("/")`. -/
def rstripSlash (l : List Char) : List Char :=
  (l.reverse.dropWhile (· = '/')).reverse

/-- `link_logic._match_url_against_patterns`: generic fnmatch helper
used by `is_blacklisted` and `is_whitelisted`. -/
def _match_url_against_patterns (u : String) (patterns : List String) : Bool :=
  if patterns.isEmpty then false
  else
    let hh := _host_and_hostpath u
    let host := hh.1
    let hostpath := hh.2
    if host = "" then false
    else
      let candidates : List String :=
        [host, host ++ "/", host ++ "/*", hostpath, hostpath ++ "/", hostpath ++ "/*"]
      patterns.any fun pat =>
        let p := strStrip (strLower pat)
        (candidates.any fun c => fnmatchcase c p) ||
        (p.data.take 2 = ['*', '.'] &&
          (let suffix := String.mk (rstripSlash (removeSlashStar (p.data.drop 2)))
           suffix.data.isSuffixOf host.data && host ≠ suffix))

/-- `link_logic.is_blacklisted`. -/
def is_blacklisted (u : String) (cfg : LogicConfig) : Bool :=
  _match_url_against_patterns u cfg.blacklist_patterns

/-- `link_logic.is_whitelisted`. -/
def is_whitelisted (u : String) (cfg : LogicConfig) : Bool :=
  _match_url_against_patterns u cfg.whitelist_patterns

/-- `link_logic._registrable_domain_or`.  The `tldextract` optional
dependency is abstracted by the oracle `tldx`: `tldx host = some d`
models a successful extraction with nonempty domain and suffix giving
`"{domain}.{suffix}"`, `none` models failure or a missing part. -/
def _registrable_domain_or (tldx : String → Option String) (host : String)
    (fallbackToHost : Bool) : String :=
  match tldx host with
  | some d => strLower d
  | none =>
    if fallbackToHost then
      if String.mk (host.data.take 4) = "www." then String.mk (host.data.drop 4) else host
    else host

/-- `link_logic._is_same_domain_blocked`. -/
def _is_same_domain_blocked (tldx : String → Option String)
    (candidate origin : String) (cfg : LogicConfig) : Bool :=
  match cfg.same_domain_policy with
  | SameDomainPolicy.follow => false
  | SameDomainPolicy.noSelfDomain => candidate == origin
  | SameDomainPolicy.noSelfDomainOrSubdomain =>
    if cfg.use_registrable_domain then
      _registrable_domain_or tldx candidate true == _registrable_domain_or tldx origin true
    else
      candidate == origin || ('.' :: origin.data).isSuffixOf candidate.data

/- ===================================================================
   Link elements, backlink detection, evidence construction
   =================================================================== -/

/-- Model of a bs4 `Tag` restricted to what the sources read: its
serialized HTML (`str(tag)`), the optional `href` attribute, and the
optional multi-valued `rel` attribute (bs4 yields `rel` as a list of
string tokens on `<a>`/`<link>` elements). -/
structure Elem where
  html : String
  href : Option String
  rel : Option (List String)
deriving Repr, DecidableEq

/-- `link_logic._rel_list`: lowercased, stripped rel tokens ( `[]` when
the attribute is absent or empty). -/
def _rel_list (tag : Elem) : List String :=
  match tag.rel with
  | none => []
  | some rel => rel.map (fun r => strLower (strStrip r))

/-- `link_logic._is_asset_rel`. -/
def _is_asset_rel (tag : Elem) : Bool :=
  (_rel_list tag).any (fun r => NON_HTML_REL.contains r)

/-- Loop of `link_logic.detect_backlink_element`; the outer `Option`
models the `ValueError` that `urljoin` can raise (`none` = the call
raises), the inner one the found-element-or-`None` result. -/
def detectBacklinkGo (current_url norm_origin : String) :
    List Elem → Option (Option Elem)
  | [] => some none
  | el :: rest =>
    match el.href with
    | none => detectBacklinkGo current_url norm_origin rest
    | some href =>
      if href = "" then detectBacklinkGo current_url norm_origin rest
      else
        match urljoin current_url href with
        | none => none
        | some r =>
          let resolved := normalize_url r
          if ! is_fetchable_url resolved then
            detectBacklinkGo current_url norm_origin rest
          else if resolved = norm_origin then some (some el)
          else detectBacklinkGo current_url norm_origin rest

/-- `link_logic.detect_backlink_element`: first tag linking back to
`origin_url` after resolution and normalization. -/
def detect_backlink_element (current_url origin_url : String)
    (elements : List Elem) : Option (Option Elem) :=
  detectBacklinkGo current_url (normalize_url origin_url) elements

/-- `link_logic.classify_backlink`: `(kind, classification,
trusted_surface)`; `none` models the `ValueError` its un-guarded
`_netloc` call can raise. -/
def classify_backlink (tag : Elem) (source_url : String) (cfg : LogicConfig) :
    Option (String × String × Bool) :=
  let rel := _rel_list tag
  let is_strong := rel.contains "me"
  let kind := if is_strong then "rel-me" else "backlink"
  let classification := if is_strong then "strong" else "weak"
  match _netloc source_url with
  | none => none
  | some source_domain =>
    some (kind, classification,
      cfg.trusted_domains.any (fun d => strContains source_domain d))

/-- `models.URLContext`. -/
structure URLContext where
  url : String
  context : String
deriving Repr, DecidableEq

/-- `models.LinkDetails`. -/
structure LinkDetails where
  html : String
  rel : List String
  nofollow : Bool
deriving Repr, DecidableEq

/-- `models.EvidenceRecord` (without the unused `observed_at`).  The
extra `pivot` field is a proof-side annotation: for indirect evidence it
repeats the normalized pivot URL that `make_indirect_evidence` embeds in
`notes` (and is `none` on every other record), so that theorems can name
the pivot without re-parsing `notes`. -/
structure EvidenceRecord where
  id : String
  kind : String
  source : URLContext
  target : URLContext
  link : Option LinkDetails
  classification : String
  hops : Nat
  trusted_surface : Bool
  notes : String
  pivot : Option String
deriving Repr, DecidableEq

/-- `link_logic.make_evidence`; `none` models the `ValueError` from
`classify_backlink`'s `_netloc` call. -/
def make_evidence (source_url origin_url : String) (hops : Nat) (tag : Elem)
    (cfg : LogicConfig) (ordinal : Nat) : Option EvidenceRecord :=
  match classify_backlink tag source_url cfg with
  | none => none
  | some kct =>
    let rel_vals := _rel_list tag
    some
      { id := "e-backlink-" ++ toString ordinal
        kind := kct.1
        source := ⟨normalize_url origin_url, "origin-page"⟩
        target := ⟨normalize_url source_url, "candidate-page"⟩
        link := some ⟨tag.html, rel_vals, rel_vals.contains "nofollow"⟩
        classification := kct.2.1
        hops := hops
        trusted_surface := kct.2.2
        notes := ""
        pivot := none }

/-- `link_logic.make_indirect_evidence`. -/
def make_indirect_evidence (origin_url pivot_url neighbor_url : String)
    (hops : Nat) (ordinal : Nat) : EvidenceRecord :=
  let no := normalize_url origin_url
  let np := normalize_url pivot_url
  let nn := normalize_url neighbor_url
  { id := "e-indirect-" ++ toString ordinal
    kind := "backlink"
    source := ⟨no, "origin-page"⟩
    target := ⟨nn, "candidate-page"⟩
    link := none
    classification := "indirect"
    hops := hops
    trusted_surface := false
    notes := "INDIRECT via pivot=" ++ np ++ " chain=" ++ no ++ "<->" ++ np ++ "<->" ++ nn
    pivot := some np }

/- ===================================================================
   queue_candidates_from_origin / queue_candidates_from_pivot
   =================================================================== -/

/-- Loop of `link_logic.queue_candidates_from_origin`; `none` models a
propagating `ValueError` from `urljoin`/`_netloc`. -/
def queueFromOriginGo (tldx : String → Option String) (current_url : String)
    (origin_host : String) (cfg : LogicConfig)
    (already_queued visited : List String) :
    List Elem → List String → Option (List String)
  | [], out => some out
  | el :: rest, out =>
    if out.length ≥ cfg.max_outlinks then some out
    else
      let skip := queueFromOriginGo tldx current_url origin_host cfg
        already_queued visited rest
      match el.href with
      | none => skip out
      | some href =>
        if href = "" then skip out
        else if _is_asset_rel el then skip out
        else match urljoin current_url href with
        | none => none
        | some resolved =>
          let norm := normalize_url resolved
          if ! is_fetchable_url norm then skip out
          else if cfg.only_whitelist && ! is_whitelisted norm cfg then skip out
          else if ! cfg.only_whitelist && is_blacklisted norm cfg then skip out
          else if ! is_probably_html_url resolved then skip out
          else match _netloc norm with
          | none => none
          | some cand_host =>
            if _is_same_domain_blocked tldx cand_host origin_host cfg then skip out
            else if visited.contains norm || already_queued.contains norm ||
                out.contains norm then skip out
            else skip (out ++ [norm])

/-- `link_logic.queue_candidates_from_origin`. -/
def queue_candidates_from_origin (tldx : String → Option String)
    (current_url origin_url : String) (elements : List Elem)
    (cfg : LogicConfig) (already_queued visited : List String) :
    Option (List String) :=
  match _netloc origin_url with
  | none => none
  | some origin_host =>
    queueFromOriginGo tldx current_url origin_host cfg already_queued visited
      elements []

/-- Loop of `link_logic.queue_candidates_from_pivot`; `none` models a
propagating `ValueError` from `urljoin`/`_netloc`. -/
def queueFromPivotGo (current_url origin_url origin_host : String)
    (cfg : LogicConfig) (already_queued visited : List String) :
    List Elem → List String → Option (List String)
  | [], out => some out
  | el :: rest, out =>
    if out.length ≥ cfg.max_outlinks then some out
    else
      let skip := queueFromPivotGo current_url origin_url origin_host cfg
        already_queued visited rest
      match el.href with
      | none => skip out
      | some href =>
        if href = "" then skip out
        else if _is_asset_rel el then skip out
        else match urljoin current_url href with
        | none => none
        | some r =>
          let resolved := normalize_url r
          if ! is_fetchable_url resolved then skip out
          else if cfg.only_whitelist && ! is_whitelisted resolved cfg then skip out
          else if ! cfg.only_whitelist && is_blacklisted resolved cfg then skip out
          else if ! is_probably_html_url resolved then skip out
          else match _netloc resolved with
          | none => none
          | some resolved_host =>
            if resolved = origin_url || resolved_host = origin_host then skip out
            else if visited.contains resolved || already_queued.contains resolved ||
                out.contains resolved then skip out
            else skip (out ++ [resolved])

/-- `link_logic.queue_candidates_from_pivot` (the `pivot_url` argument
is accepted but, as in the source, unused by the body). -/
def queue_candidates_from_pivot (current_url pivot_url origin_url : String)
    (elements : List Elem) (cfg : LogicConfig)
    (already_queued visited : List String) : Option (List String) :=
  match _netloc origin_url with
  | none => none
  | some origin_host =>
    queueFromPivotGo current_url origin_url origin_host cfg already_queued
      visited elements []

/- ===================================================================
   scoring.calculate_score
   =================================================================== -/

/-- `models.ScoreLabel`. -/
inductive ScoreLabel where
  | high
  | medium
  | low
deriving Repr, DecidableEq

/-- `scoring.calculate_score`.  The Python float expression
`int(85*s + 50*w + 10*i - penalties)` is modelled with exact rational
arithmetic and `Rat.floor`; this is exact because every attainable
summand is produced exactly by binary64 arithmetic
(`85*s ∈ {0,85}`, `50*w ∈ {0,25,50}`, `10*i ∈ {0,2,4,6,8,10}`) and the
value is nonnegative, so `int` truncation coincides with the floor. -/
def calculate_score (evidence : List EvidenceRecord) : Int × ScoreLabel :=
  let strong_count := (evidence.filter (fun ev => ev.classification = "strong")).length
  let weak_count := (evidence.filter (fun ev => ev.classification = "weak")).length
  let indirect_count := (evidence.filter (fun ev => ev.classification = "indirect")).length
  let penalties : ℚ := 0
  let s : ℚ := min 1 ((strong_count : ℚ) / 1)
  let w : ℚ := min 1 ((weak_count : ℚ) / 2)
  let i : ℚ := min 1 ((indirect_count : ℚ) / 5)
  let score0 : Int := Rat.floor (85 * s + 50 * w + 10 * i - penalties)
  let score := max 0 (min 100 score0)
  let label :=
    if score ≥ 80 then ScoreLabel.high
    else if score ≥ 50 then ScoreLabel.medium
    else ScoreLabel.low
  (score, label)

/- ===================================================================
   cache.FileCache
   =================================================================== -/

/-- `cache.CacheConfig`. -/
structure CacheConfig where
  enabled : Bool
  directory : String
  expire_seconds : Nat
  store_errors : Bool
deriving Repr, DecidableEq

/-- A stored cache value: the dict written by `set_html_ok`. -/
structure CacheEntry where
  final_url : String
  status : Int
  headers : List (String × String)
  text : String
  content_type : String
deriving Repr, DecidableEq

/-- `cache.FileCache` state.  `store = none` models a disabled cache
(`self._cache is None`, the `enabled=False` constructor path); when the
cache is open, `store` is the key→value content of the underlying
`diskcache.Cache` (an open cache always has a truthy directory, since
`create_cache_object` raises otherwise). -/
structure FileCache where
  cfg : CacheConfig
  store : Option (List (String × CacheEntry))
deriving Repr, DecidableEq

/-- Assoc-list update modelling `diskcache.Cache.set`: overwrite the
binding for `k` or append a new one. -/
def assocSet (l : List (String × CacheEntry)) (k : String) (v : CacheEntry) :
    List (String × CacheEntry) :=
  match l with
  | [] => [(k, v)]
  | (k', v') :: rest => if k' = k then (k, v) :: rest else (k', v') :: assocSet rest k v

/-- Assoc-list lookup modelling `diskcache.Cache.get` (entry expiry is
not modelled; `set_html_ok`, the subject of the claims, does not read). -/
def assocGet (l : List (String × CacheEntry)) (k : String) : Option CacheEntry :=
  match l with
  | [] => none
  | (k', v') :: rest => if k' = k then some v' else assocGet rest k

/-- `cache.FileCache.set_html_ok`: a no-op on a disabled cache; a no-op
when `status != 200` unless `store_errors`; otherwise stores the entry
with lowercased header keys and lowercased content type. -/
def set_html_ok (fc : FileCache) (url final_url : String) (status : Int)
    (headers : List (String × String)) (text content_type : String) :
    FileCache :=
  match fc.store with
  | none => fc
  | some store =>
    if status ≠ 200 ∧ ¬ fc.cfg.store_errors then fc
    else
      { fc with
        store := some (assocSet store url
          { final_url := final_url
            status := status
            headers := headers.map (fun kv => (strLower kv.1, kv.2))
            text := text
            content_type := strLower content_type }) }

/- ===================================================================
   api.crawl_and_score and config.DEFAULT_CONFIG
   =================================================================== -/

/-- The subset of `config.DEFAULT_CONFIG` the claims refer to:
`use_playwright_as_fallback` is defined there (line 41) and read
nowhere else in the sources. -/
structure ConfigDefaults where
  use_playwright_as_fallback : Bool
deriving Repr, DecidableEq

/-- `config.DEFAULT_CONFIG` (relevant entry). -/
def DEFAULT_CONFIG : ConfigDefaults := { use_playwright_as_fallback := false }

/-- `models.Result`. -/
structure Result where
  origin_url : String
  score : Int
  label : ScoreLabel
  evidence : List EvidenceRecord
  errors : List String
deriving Repr, DecidableEq

/-- Outcome of one crawl stage: the `(evidence, errors)` pair from
`crawler.get_results()` after `crawl()`, or the exception message the
stage escaped with. -/
abbrev CrawlOutcome := Except String (List EvidenceRecord × List String)

/-- Whether `api.crawl_and_score` enters the Playwright fallback stage:
the `if not evidence:` test after a successful primary stage (an
exception in the primary stage jumps to the handler, skipping the
fallback). -/
def fallback_invoked (primary : CrawlOutcome) : Bool :=
  match primary with
  | Except.error _ => false
  | Except.ok (ev1, _) => ev1.isEmpty

/-- `api.crawl_and_score` with the two crawl stages abstracted as
outcome parameters.  The `try/except Exception` around the crawl
catches every exception, appends a single `"Fatal crawler error: ..."`
entry (the previous errors binding is `[]` for a primary-stage failure,
and was explicitly cleared before the fallback stage), and control then
falls through to scoring — so the function never returns
`Except.error`; the `Except` result type records that no exception
propagates to the caller. -/
def crawl_and_score (origin_url : String) (primary fallbackStage : CrawlOutcome) :
    Except String Result :=
  let eff : List EvidenceRecord × List String :=
    match primary with
    | Except.error e => ([], ["Fatal crawler error: " ++ e])
    | Except.ok (ev1, errs1) =>
      if ev1.isEmpty then
        match fallbackStage with
        | Except.error e => (ev1, ["Fatal crawler error: " ++ e])
        | Except.ok (ev2, errs2) => (ev2, errs2)
      else (ev1, errs1)
  let sl := calculate_score eff.1
  Except.ok
    { origin_url := origin_url
      score := sl.1
      label := sl.2
      evidence := eff.1
      errors := eff.2 }

/- ===================================================================
   crawler.Crawler state machine
   =================================================================== -/

/-- Generic assoc-list lookup (used for the crawler's `parent` dict). -/
def alookup {α : Type} (l : List (String × α)) (k : String) : Option α :=
  match l with
  | [] => none
  | (k', v') :: rest => if k' = k then some v' else alookup rest k

/-- Union-update for `pivot_outlinked` modelling
`dict.setdefault(k, set()).update(ns)`. -/
def povAdd (m : List (String × List String)) (k : String) (ns : List String) :
    List (String × List String) :=
  match m with
  | [] => [(k, ns)]
  | (k', v) :: rest =>
    if k' = k then (k', v ++ ns.filter (fun n => ! v.contains n)) :: rest
    else (k', v) :: povAdd rest k ns

/-- The mutable crawl state of `crawler.Crawler` that `_process_url`
reads or writes.  The HTTP client, the on-disk cache and the `errors`
list (which only failed fetches append to) are abstracted away by the
fetch oracle of `processUrl`; `_queued_urls` is the set mirror of
`queue` and is represented by `queue` itself; `_scheduled_urls` belongs
to the scheduler and only gates `_enqueue`. -/
structure CrawlState where
  normalized_origin_url : String
  queue : List (String × Nat)
  visited_urls : List String
  evidence_producing_urls : List String
  evidence : List EvidenceRecord
  parent : List (String × String)
  pivot_has_backlink_to_origin : List String
  pivot_outlinked : List (String × List String)
  scheduled_urls : List String
deriving Repr, DecidableEq

/-- `crawler.Crawler._enqueue`. -/
def enqueue (st : CrawlState) (url : String) (hops : Nat) : CrawlState :=
  let url := normalize_url url
  if st.visited_urls.contains url then st
  else if st.scheduled_urls.contains url then st
  else { st with queue := st.queue ++ [(url, hops)] }

/-- The origin-page branch of `_process_url` (step 5 of the per-URL
contract): enqueue the policy survivors as next-hop candidates.  A
`none` from `queue_candidates_from_origin` models the propagating
`ValueError`: the step aborts, keeping the state reached so far. -/
def processOriginBranch (tldx : String → Option String) (cfg : LogicConfig)
    (st : CrawlState) (current_url : String) (hops : Nat)
    (elements : List Elem) : CrawlState :=
  match queue_candidates_from_origin tldx current_url
      st.normalized_origin_url elements cfg (st.queue.map Prod.fst)
      st.visited_urls with
  | none => st
  | some next_candidates =>
    next_candidates.foldl (fun acc url => enqueue acc url (hops + 1)) st

/-- The direct-evidence block of `_process_url` for a detected (and, in
`only_rel_me` mode, retained) backlink tag: append direct evidence,
record the page as evidence-producing and pivot-confirmed, then fan out
B→C neighbors, recording first-writer parents and enqueueing them.
Returns the new state and whether an exception aborted the step there
(in which case the indirect block below must not run). -/
def processDirect (cfg : LogicConfig) (st : CrawlState)
    (current_url : String) (hops : Nat) (elements : List Elem)
    (tag : Option Elem) : CrawlState × Bool :=
  match tag with
  | none => (st, false)
  | some t =>
    match make_evidence current_url st.normalized_origin_url hops t cfg
        (st.evidence.length + 1) with
    | none => (st, true)
    | some ev =>
      let st1 :=
        { st with
          evidence := st.evidence ++ [ev]
          evidence_producing_urls :=
            st.evidence_producing_urls ++ [current_url]
          pivot_has_backlink_to_origin :=
            st.pivot_has_backlink_to_origin ++ [current_url] }
      match queue_candidates_from_pivot current_url current_url
          st1.normalized_origin_url elements cfg
          (st1.queue.map Prod.fst) st1.visited_urls with
      | none => (st1, true)
      | some next_neighbors =>
        if next_neighbors.isEmpty then (st1, false)
        else
          let st2 := { st1 with
            pivot_outlinked := povAdd st1.pivot_outlinked current_url
              next_neighbors }
          let st3 := next_neighbors.foldl (fun acc c =>
            let acc :=
              if (alookup acc.parent c).isNone then
                { acc with parent := acc.parent ++ [(c, current_url)] }
              else acc
            enqueue acc c (hops + 1)) st2
          (st3, false)

/-- The indirect-evidence block of `_process_url` (step 7): when the
page has a known parent pivot, a backlink to that pivot is present, and
the pivot is confirmed, append indirect evidence — suppressed in
`only_rel_me` mode. -/
def processIndirect (only_rel_me : Bool) (st1 : CrawlState)
    (current_url : String) (hops : Nat) (elements : List Elem) :
    CrawlState :=
  match alookup st1.parent current_url with
  | none => st1
  | some pivot_url =>
    match detect_backlink_element current_url pivot_url elements with
    | none => st1
    | some none => st1
    | some (some _) =>
      if st1.pivot_has_backlink_to_origin.contains pivot_url then
        if ! only_rel_me then
          { st1 with
            evidence := st1.evidence ++
              [make_indirect_evidence st1.normalized_origin_url pivot_url
                current_url hops (st1.evidence.length + 1)]
            evidence_producing_urls :=
              st1.evidence_producing_urls ++ [current_url] }
        else st1
      else st1

/-- The post-fetch part of `crawler.Crawler._process_url` (everything
from `elements = extract_href_elements(soup)` on), as one atomic state
transition: on the origin page, enqueue policy survivors; otherwise
detect a direct B→A backlink (discarded in `only_rel_me` mode without a
`"me"` rel token), run the direct-evidence block, and — unless an
exception aborted that block — the indirect-evidence block.  A `none`
from `detect_backlink_element` models the propagating `ValueError`: the
step aborts and the scheduler swallows the exception. -/
def processPage (tldx : String → Option String) (cfg : LogicConfig)
    (only_rel_me : Bool) (st : CrawlState) (current_url : String)
    (hops : Nat) (elements : List Elem) : CrawlState :=
  if current_url = st.normalized_origin_url then
    processOriginBranch tldx cfg st current_url hops elements
  else
    match detect_backlink_element current_url st.normalized_origin_url elements with
    | none => st
    | some tag0 =>
      let tag : Option Elem :=
        match tag0 with
        | none => none
        | some t =>
          if only_rel_me && ! (_rel_list t).contains "me" then none else some t
      let afterDirect := processDirect cfg st current_url hops elements tag
      if afterDirect.2 then afterDirect.1
      else processIndirect only_rel_me afterDirect.1 current_url hops elements

/-- `crawler.Crawler._process_url`: the pre-fetch gates (blacklist, hop
limit), `_fetch_and_parse`'s own gates (scheme, likely-HTML, visited)
and its visited-set insertion, then — when the fetch yields a parsed
page — the post-fetch processing.  The oracle `page` stands for the
network/cache I/O: `some els` is a successful 200 text/html fetch
parsed into link elements, `none` covers error responses, non-HTML
content and raised fetch errors (all of which leave `_process_url`
after the visited-set insertion with no further state change besides
the un-modelled `errors` list and cache). -/
def processUrl (tldx : String → Option String) (cfg : LogicConfig)
    (only_rel_me : Bool) (max_hops : Nat) (st : CrawlState)
    (current_url : String) (hops : Nat) (page : Option (List Elem)) :
    CrawlState :=
  if is_blacklisted current_url cfg then st
  else if hops ≥ max_hops then st
  else if ! is_fetchable_url current_url then st
  else if ! is_probably_html_url current_url then st
  else if st.visited_urls.contains current_url then st
  else
    let st := { st with visited_urls := st.visited_urls ++ [current_url] }
    match page with
    | none => st
    | some elements =>
      processPage tldx cfg only_rel_me st current_url hops elements

/-- Initial crawler state from `Crawler.__aenter__`: with seeds (a
nonempty list — Python truthiness) the origin is marked visited and
each seed enqueued normalized at hop 1; otherwise the origin is
enqueued at hop 0. -/
def initState (origin_url : String) (seed_urls : Option (List String)) :
    CrawlState :=
  let norigin := normalize_url origin_url
  match seed_urls with
  | some (s :: ss) =>
    { normalized_origin_url := norigin
      queue := (s :: ss).map (fun u => (normalize_url u, 1))
      visited_urls := [norigin]
      evidence_producing_urls := []
      evidence := []
      parent := []
      pivot_has_backlink_to_origin := []
      pivot_outlinked := []
      scheduled_urls := [] }
  | _ =>
    { normalized_origin_url := norigin
      queue := [(norigin, 0)]
      visited_urls := []
      evidence_producing_urls := []
      evidence := []
      parent := []
      pivot_has_backlink_to_origin := []
      pivot_outlinked := []
      scheduled_urls := [] }

/-- Crawl states reachable under the scheduler of `Crawler.crawl`.  One
real `_process_url` execution is its fetch phase (visited-set insertion
behind the gates — `stepFetch`) followed, after the network `await`, by
its post-fetch phase (`stepPage`); other tasks may run between the two
phases on the single-threaded event loop, and each phase's mutations
are atomic (no `await` inside).  Allowing the two phases as independent
steps from arbitrary intermediate states covers every interleaving the
scheduler can produce (`scheduled_urls` is left untouched by
`_process_url`, matching the source, where only the scheduler updates
it). -/
inductive Reachable (tldx : String → Option String) (cfg : LogicConfig)
    (only_rel_me : Bool) (max_hops : Nat) : CrawlState → Prop where
  | init (origin_url : String) (seed_urls : Option (List String)) :
      Reachable tldx cfg only_rel_me max_hops (initState origin_url seed_urls)
  | stepFetch (st : CrawlState) (current_url : String) (hops : Nat) :
      Reachable tldx cfg only_rel_me max_hops st →
      Reachable tldx cfg only_rel_me max_hops
        (processUrl tldx cfg only_rel_me max_hops st current_url hops none)
  | stepPage (st : CrawlState) (current_url : String) (hops : Nat)
      (elements : List Elem) :
      Reachable tldx cfg only_rel_me max_hops st →
      Reachable tldx cfg only_rel_me max_hops
        (processPage tldx cfg only_rel_me st current_url hops elements)

/-- A direct-evidence record (the shape `make_evidence` produces:
no pivot annotation, strong or weak) for target URL `B` sits at index
`j` of the evidence list. -/
def directAt (evidence : List EvidenceRecord) (j : Nat) (B : String) : Prop :=
  ∃ r, evidence[j]? = some r ∧ r.pivot = none ∧
    (r.classification = "strong" ∨ r.classification = "weak") ∧
    r.target.url = B

/-- Pivot-causality invariant (C6) at the list level: every indirect
record's pivot is preceded by a direct record targeting it, and every
confirmed pivot URL already has a direct record targeting its
normalized form. -/
def PivotInvL (evidence : List EvidenceRecord) (pc : List String) : Prop :=
  (∀ k r, evidence[k]? = some r → r.classification = "indirect" →
    ∀ B, r.pivot = some B → ∃ j < k, directAt evidence j B) ∧
  (∀ b ∈ pc, ∃ j < evidence.length, directAt evidence j (normalize_url b))

/-- The pivot-causality invariant of a crawl state. -/
def PivotInvariant (st : CrawlState) : Prop :=
  PivotInvL st.evidence st.pivot_has_backlink_to_origin

/- ===================================================================
   Claim-side definitions (written from the specification's words, for
   comparison against the source embeddings above)
   =================================================================== -/

/-- Spec §4.9 score formula: `clamp(⌊85·s + 50·w + 10·i − penalties⌋,
0, 100)` with `s = min(1, S/1)`, `w = min(1, W/2)`, `i = min(1, I/5)`
and `penalties = 0`. -/
def specScore (S W I : Nat) : Int :=
  max 0 (min 100 (Rat.floor
    (85 * min 1 ((S : ℚ) / 1) + 50 * min 1 ((W : ℚ) / 2) +
      10 * min 1 ((I : ℚ) / 5) - 0)))

/-- Spec §4.9 label partition: `high` if score ≥ 80, `medium` if
score ≥ 50, else `low`. -/
def specLabel (score : Int) : ScoreLabel :=
  if score ≥ 80 then ScoreLabel.high
  else if score ≥ 50 then ScoreLabel.medium
  else ScoreLabel.low

/-- A minimal evidence record carrying a given classification (for the
concrete scoring vectors; `calculate_score` reads only
`classification`). -/
def evidenceWithClassification (c : String) : EvidenceRecord :=
  { id := "e", kind := "backlink", source := ⟨"", "origin-page"⟩
    target := ⟨"", "candidate-page"⟩, link := none, classification := c
    hops := 1, trusted_surface := false, notes := "", pivot := none }

/-- The matching predicate C8 claims for `_match_url_against_patterns`:
some pattern fnmatches (after the matcher's lowercasing/stripping) one
of the six derived forms of the normalized URL, or a `*.`-pattern names
a strict suffix of the host. -/
def claimedPatternMatch (u : String) (patterns : List String) : Prop :=
  ∃ pat ∈ patterns,
    (∃ c ∈ [(_host_and_hostpath u).1,
            (_host_and_hostpath u).1 ++ "/",
            (_host_and_hostpath u).1 ++ "/*",
            (_host_and_hostpath u).2,
            (_host_and_hostpath u).2 ++ "/",
            (_host_and_hostpath u).2 ++ "/*"],
       fnmatchcase c (strStrip (strLower pat)) = true) ∨
    ((strStrip (strLower pat)).data.take 2 = ['*', '.'] ∧
      (let suffix := String.mk (rstripSlash (removeSlashStar
          ((strStrip (strLower pat)).data.drop 2)))
       suffix.data.isSuffixOf (_host_and_hostpath u).1.data = true ∧
         (_host_and_hostpath u).1 ≠ suffix))

/-- The element predicate C9 claims for `detect_backlink_element`: the
element has a (nonempty) href whose resolution against `current_url`,
normalized, is fetchable and equals the normalized target. -/
def claimedBacklinkPred (current_url target_url : String) (el : Elem) : Bool :=
  match el.href with
  | none => false
  | some href =>
    if href = "" then false
    else match urljoin current_url href with
      | none => false
      | some r =>
        let resolved := normalize_url r
        is_fetchable_url resolved && (resolved = normalize_url target_url)

/- ===================================================================
   Theorems
   =================================================================== -/

/-- `Rat.floor` is the `FloorRing` floor on `ℚ` (the instance is built
from it). -/
theorem ratFloor_eq_intFloor (q : ℚ) : Rat.floor q = ⌊q⌋ := rfl

theorem specScore_one_strong : specScore 1 0 0 = 85 := by
  simp only [specScore, ratFloor_eq_intFloor, min_def]
  norm_num

theorem specScore_two_weak : specScore 0 2 0 = 50 := by
  simp only [specScore, ratFloor_eq_intFloor, min_def]
  norm_num

theorem specScore_strong_three_weak : specScore 1 3 0 = 100 := by
  simp only [specScore, ratFloor_eq_intFloor, min_def]
  norm_num

/-- C1: for every evidence list, `calculate_score` returns the score
`clamp(⌊85·s + 50·w + 10·i − penalties⌋, 0, 100)` with
`s = min(1, S/1)`, `w = min(1, W/2)`, `i = min(1, I/5)`,
`penalties = 0`, for S/W/I the strong/weak/indirect counts, and the
label `high` for score ≥ 80, `medium` for 50 ≤ score < 80, `low`
otherwise; in particular one strong record yields `(85, high)`, two
weak records `(50, medium)`, and `[strong, weak, weak, weak]`
`(100, high)`. -/
theorem scoring_formula_and_vectors :
    (∀ evidence : List EvidenceRecord,
      calculate_score evidence =
        (specScore (evidence.filter (fun ev => ev.classification = "strong")).length
            (evidence.filter (fun ev => ev.classification = "weak")).length
            (evidence.filter (fun ev => ev.classification = "indirect")).length,
         specLabel (specScore
            (evidence.filter (fun ev => ev.classification = "strong")).length
            (evidence.filter (fun ev => ev.classification = "weak")).length
            (evidence.filter (fun ev => ev.classification = "indirect")).length))) ∧
    calculate_score [evidenceWithClassification "strong"] =
      (85, ScoreLabel.high) ∧
    calculate_score [evidenceWithClassification "weak",
      evidenceWithClassification "weak"] = (50, ScoreLabel.medium) ∧
    calculate_score [evidenceWithClassification "strong",
      evidenceWithClassification "weak", evidenceWithClassification "weak",
      evidenceWithClassification "weak"] = (100, ScoreLabel.high) := by
  refine ⟨fun _ => rfl, ?_, ?_, ?_⟩
  · have h : calculate_score [evidenceWithClassification "strong"] =
        (specScore 1 0 0, specLabel (specScore 1 0 0)) := rfl
    rw [h, specScore_one_strong]
    norm_num [specLabel]
  · have h : calculate_score [evidenceWithClassification "weak",
        evidenceWithClassification "weak"] =
        (specScore 0 2 0, specLabel (specScore 0 2 0)) := rfl
    rw [h, specScore_two_weak]
    norm_num [specLabel]
  · have h : calculate_score [evidenceWithClassification "strong",
        evidenceWithClassification "weak", evidenceWithClassification "weak",
        evidenceWithClassification "weak"] =
        (specScore 1 3 0, specLabel (specScore 1 3 0)) := rfl
    rw [h, specScore_strong_three_weak]
    norm_num [specLabel]

/-- C2 (the code violates the claimed idempotence): `normalize_url`
strips only a single trailing slash, so on `"http://host//"` it returns
`"http://host/"`, and a second application returns `"http://host"` —
`normalize_url (normalize_url u) ≠ normalize_url u` at this input. -/
theorem normalize_url_not_idempotent :
    normalize_url "http://host//" = "http://host/" ∧
    normalize_url (normalize_url "http://host//") = "http://host" ∧
    ¬ normalize_url (normalize_url "http://host//") =
        normalize_url "http://host//" :=
  ⟨by decide, by decide, by decide⟩

theorem specScore_zero : specScore 0 0 0 = 0 := by
  simp only [specScore, ratFloor_eq_intFloor, min_def]
  norm_num

theorem calculate_score_nil : calculate_score [] = (0, ScoreLabel.low) := by
  have h : calculate_score [] = (specScore 0 0 0, specLabel (specScore 0 0 0)) := rfl
  rw [h, specScore_zero]
  norm_num [specLabel]

/-- C3 counterexample: with the primary stage succeeding with zero
evidence the fallback stage IS entered although
`use_playwright_as_fallback` is `False` — `api.crawl_and_score` never
consults the flag (`config.DEFAULT_CONFIG` defines it and nothing reads
it). -/
theorem fallback_runs_despite_disabled_flag :
    fallback_invoked (Except.ok ([], [])) = true ∧
    DEFAULT_CONFIG.use_playwright_as_fallback = false :=
  ⟨rfl, rfl⟩

/-- C3 amended: the Playwright fallback stage is entered iff the primary
httpx stage returned normally with zero evidence records — the
`use_playwright_as_fallback` flag plays no role; when the primary stage
produced at least one evidence record the result does not depend on the
fallback stage at all. -/
theorem fallback_iff_no_primary_evidence :
    (∀ primary : CrawlOutcome,
      fallback_invoked primary = true ↔ ∃ errs, primary = Except.ok ([], errs)) ∧
    (∀ (origin : String) (ev1 : List EvidenceRecord) (errs1 : List String)
        (fb fb' : CrawlOutcome), ev1 ≠ [] →
      crawl_and_score origin (Except.ok (ev1, errs1)) fb =
        crawl_and_score origin (Except.ok (ev1, errs1)) fb') := by
  constructor
  · intro primary
    cases primary with
    | error e => simp [fallback_invoked]
    | ok p =>
      obtain ⟨ev1, errs⟩ := p
      cases ev1 <;> simp [fallback_invoked]
  · intro origin ev1 errs1 fb fb' h
    cases ev1 with
    | nil => exact absurd rfl h
    | cons a t => rfl

theorem fallback_iff_no_primary_evidence_witness :
    (fallback_invoked (Except.ok ([], [])) = true ↔
      ∃ errs, (Except.ok ([], []) : CrawlOutcome) = Except.ok ([], errs)) ∧
    crawl_and_score "https://a.example"
        (Except.ok ([evidenceWithClassification "strong"], []))
        (Except.ok ([], [])) =
      crawl_and_score "https://a.example"
        (Except.ok ([evidenceWithClassification "strong"], []))
        (Except.error "boom") :=
  ⟨fallback_iff_no_primary_evidence.1 _,
   fallback_iff_no_primary_evidence.2 "https://a.example" _ _ _ _
     (List.cons_ne_nil _ _)⟩

/-- C4 counterexample: a fatal primary-stage failure is caught, not
re-raised — `crawl_and_score` returns a normal `Result` (carrying the
single fatal error entry and the empty-evidence score) rather than
propagating the exception. -/
theorem fatal_failure_returns_normal_result :
    crawl_and_score "https://a.example" (Except.error "boom")
        (Except.ok ([], [])) =
      Except.ok
        { origin_url := "https://a.example", score := 0
          label := ScoreLabel.low, evidence := []
          errors := ["Fatal crawler error: boom"] } := by
  simp [crawl_and_score, calculate_score_nil]

/-- C4 amended: a fatal failure in either crawl stage is caught by
`crawl_and_score`: exactly one `"Fatal crawler error: <e>"` entry is
recorded as the errors list and a normal `Result` is returned (scored
over the evidence bound at that point, which is empty); the exception
is NOT re-raised to the caller. -/
theorem fatal_failure_single_error_entry :
    (∀ (origin e : String) (fb : CrawlOutcome),
      crawl_and_score origin (Except.error e) fb =
        Except.ok
          { origin_url := origin, score := 0, label := ScoreLabel.low
            evidence := [], errors := ["Fatal crawler error: " ++ e] }) ∧
    (∀ (origin e : String) (errs1 : List String),
      crawl_and_score origin (Except.ok ([], errs1)) (Except.error e) =
        Except.ok
          { origin_url := origin, score := 0, label := ScoreLabel.low
            evidence := [], errors := ["Fatal crawler error: " ++ e] }) := by
  constructor
  · intro origin e fb
    simp [crawl_and_score, calculate_score_nil]
  · intro origin e errs1
    simp [crawl_and_score, calculate_score_nil]

/-- C5 counterexample: on an enabled cache with `store_errors = false`,
`set_html_ok` with `status = 200` and the non-HTML content type
`"application/json"` DOES store an entry: the claimed
content-type-contains-text/html gate does not exist inside
`set_html_ok` (the caller in `crawler._fetch_and_parse` checks it
before calling). -/
theorem set_html_ok_stores_non_html :
    set_html_ok ⟨⟨true, ".naive_backlink_cache", 86400, false⟩, some []⟩
        "https://u.example" "https://u.example" 200 [] "\x7b\x7d"
        "application/json" ≠
      ⟨⟨true, ".naive_backlink_cache", 86400, false⟩, some []⟩ ∧
    (set_html_ok ⟨⟨true, ".naive_backlink_cache", 86400, false⟩, some []⟩
        "https://u.example" "https://u.example" 200 [] "\x7b\x7d"
        "application/json").store =
      some [("https://u.example",
        ⟨"https://u.example", 200, [], "\x7b\x7d", "application/json"⟩)] := by
  constructor <;> decide

/-- C5 amended: `set_html_ok` stores an entry iff the cache is enabled
and (`status == 200` or `store_errors` is configured); the content type
is recorded lowercased but never tested; when `status ≠ 200` without
`store_errors`, or the cache is disabled, the cache is unchanged. -/
theorem set_html_ok_gates :
    (∀ (fc : FileCache) (url fu : String) (status : Int)
        (hdrs : List (String × String)) (text ct : String),
      fc.store = none →
      set_html_ok fc url fu status hdrs text ct = fc) ∧
    (∀ (fc : FileCache) (url fu : String) (status : Int)
        (hdrs : List (String × String)) (text ct : String),
      status ≠ 200 → fc.cfg.store_errors = false →
      set_html_ok fc url fu status hdrs text ct = fc) ∧
    (∀ (fc : FileCache) (store : List (String × CacheEntry)) (url fu : String)
        (status : Int) (hdrs : List (String × String)) (text ct : String),
      fc.store = some store → (status = 200 ∨ fc.cfg.store_errors = true) →
      (set_html_ok fc url fu status hdrs text ct).store =
        some (assocSet store url
          ⟨fu, status, hdrs.map (fun kv => (strLower kv.1, kv.2)), text,
            strLower ct⟩)) := by
  refine ⟨?_, ?_, ?_⟩
  · intro fc url fu status hdrs text ct h
    simp [set_html_ok, h]
  · intro fc url fu status hdrs text ct hst hse
    cases hs : fc.store with
    | none => simp [set_html_ok, hs]
    | some store => simp [set_html_ok, hs, hst, hse]
  · intro fc store url fu status hdrs text ct hs hok
    cases hok with
    | inl h200 => simp [set_html_ok, hs, h200]
    | inr hse =>
      by_cases h200 : status = 200
      · simp [set_html_ok, hs, h200]
      · simp [set_html_ok, hs, h200, hse]

theorem set_html_ok_gates_witness :
    set_html_ok ⟨⟨false, "", 86400, false⟩, none⟩ "u" "u" 200 [] "t" "text/html" =
      ⟨⟨false, "", 86400, false⟩, none⟩ ∧
    set_html_ok ⟨⟨true, "d", 86400, false⟩, some []⟩ "u" "u" 404 [] "t" "text/html" =
      ⟨⟨true, "d", 86400, false⟩, some []⟩ ∧
    (set_html_ok ⟨⟨true, "d", 86400, false⟩, some []⟩ "u" "u" 200
        [("X-Key", "V")] "t" "TEXT/HTML").store =
      some (assocSet [] "u"
        ⟨"u", 200, [("X-Key", "V")].map (fun kv => (strLower kv.1, kv.2)), "t",
          strLower "TEXT/HTML"⟩) :=
  ⟨set_html_ok_gates.1 _ _ _ _ _ _ _ rfl,
   set_html_ok_gates.2.1 _ _ _ _ _ _ _ (by decide) rfl,
   set_html_ok_gates.2.2 _ _ _ _ _ _ _ _ rfl (Or.inl rfl)⟩

/-- C8 counterexample: for `u = "notaurl"` (whose normalized form has an
empty host) and patterns `["*"]`, the matcher returns `false` although
`"*"` fnmatches the empty-host derived form — the claimed iff fails
because the matcher short-circuits to `false` on an empty host. -/
theorem matcher_empty_host_counterexample :
    _match_url_against_patterns "notaurl" ["*"] = false ∧
    claimedPatternMatch "notaurl" ["*"] := by
  constructor
  · decide
  · refine ⟨"*", by decide, Or.inl ?_⟩
    exact ⟨(_host_and_hostpath "notaurl").1, by decide, by decide⟩

/-- C8 amended: `_match_url_against_patterns` (hence `is_blacklisted` /
`is_whitelisted`) returns true iff the normalized URL's host is
nonempty AND (some pattern fnmatches — case-insensitively, after
stripping — one of the six derived forms `host`, `host/`, `host/*`,
`host+path`, `host+path/`, `host+path/*`, or some pattern beginning
`*.` has a suffix the host strictly ends with). -/
theorem matcher_iff_claimed :
    ∀ (u : String) (patterns : List String),
      _match_url_against_patterns u patterns = true ↔
        ((_host_and_hostpath u).1 ≠ "" ∧ claimedPatternMatch u patterns) := by
  intro u patterns
  simp only [_match_url_against_patterns, claimedPatternMatch]
  split_ifs with h1 h2
  · rw [List.isEmpty_iff] at h1
    subst h1
    simp
  · simp [h2]
  · rw [List.any_eq_true]
    simp only [Bool.or_eq_true, Bool.and_eq_true, List.any_eq_true,
      decide_eq_true_eq]
    constructor
    · intro h
      exact ⟨h2, h⟩
    · intro h
      exact h.2

theorem matcher_iff_claimed_witness :
    _match_url_against_patterns "https://sub.joinmastodon.org/x"
        ["*.joinmastodon.org/*"] = true ↔
      ((_host_and_hostpath "https://sub.joinmastodon.org/x").1 ≠ "" ∧
        claimedPatternMatch "https://sub.joinmastodon.org/x"
          ["*.joinmastodon.org/*"]) :=
  matcher_iff_claimed "https://sub.joinmastodon.org/x" ["*.joinmastodon.org/*"]

/-- C9 counterexample: an earlier element whose href resolution raises
(`"//[x"`, an unbalanced bracket netloc) makes `detect_backlink_element`
raise `ValueError` (modelled as the outer `none`) instead of returning
the later matching element that the claimed find-first semantics
selects. -/
theorem detect_raises_counterexample :
    detect_backlink_element "https://site.example/" "https://origin.example"
        [⟨"", some "//[x", none⟩, ⟨"", some "https://origin.example", none⟩] =
      none ∧
    List.find?
        (claimedBacklinkPred "https://site.example/" "https://origin.example")
        [⟨"", some "//[x", none⟩, ⟨"", some "https://origin.example", none⟩] =
      some ⟨"", some "https://origin.example", none⟩ := by
  constructor <;> decide

/-- C9 amended: provided no element's href makes URL resolution raise
(unbalanced bracket netloc — such an href makes the call itself raise),
`detect_backlink_element` returns exactly the first element, in
sequence order, whose href resolved against `current_url` and
normalized is fetchable and equals the normalized target, skipping
elements without an href; the inner result is `None` when no such
element exists. -/
theorem detect_is_find_first :
    ∀ (current_url target_url : String) (elements : List Elem),
      (∀ el ∈ elements,
        (match el.href with
         | none => true
         | some href => (href = "") || (urljoin current_url href).isSome) = true) →
      detect_backlink_element current_url target_url elements =
        some (elements.find? (claimedBacklinkPred current_url target_url)) := by
  intro current_url target_url elements h
  unfold detect_backlink_element
  induction elements with
  | nil => rfl
  | cons el rest ih =>
    have hel := h el (List.mem_cons_self el rest)
    have hrest : ∀ e ∈ rest,
        (match e.href with
         | none => true
         | some href => (href = "") || (urljoin current_url href).isSome) = true :=
      fun e he => h e (List.mem_cons_of_mem el he)
    cases hhref : el.href with
    | none =>
      have hpred : claimedBacklinkPred current_url target_url el = false := by
        simp [claimedBacklinkPred, hhref]
      simp only [detectBacklinkGo, hhref, List.find?, hpred]
      exact ih hrest
    | some href =>
      by_cases hemp : href = ""
      · subst hemp
        have hpred : claimedBacklinkPred current_url target_url el = false := by
          simp [claimedBacklinkPred, hhref]
        simp only [detectBacklinkGo, hhref, List.find?, hpred]
        simp only [if_true]
        exact ih hrest
      · have hel' : (urljoin current_url href).isSome = true := by
          rw [hhref] at hel
          simp only [decide_eq_true_eq, Bool.or_eq_true] at hel
          rcases hel with hel | hel
          · exact absurd hel hemp
          · exact hel
        cases hj : urljoin current_url href with
        | none => rw [hj] at hel'; cases hel'
        | some r =>
          have hpredEq : claimedBacklinkPred current_url target_url el =
              (is_fetchable_url (normalize_url r) &&
                decide (normalize_url r = normalize_url target_url)) := by
            simp [claimedBacklinkPred, hhref, hemp, hj]
          by_cases hf : is_fetchable_url (normalize_url r) = true
          · by_cases heq : normalize_url r = normalize_url target_url
            · have hpred : claimedBacklinkPred current_url target_url el = true := by
                rw [hpredEq, hf]
                simp [heq]
              simp only [detectBacklinkGo, hhref, List.find?, hpred]
              rw [if_neg hemp]
              simp only [hj, hf]
              simp [heq]
            · have hpred : claimedBacklinkPred current_url target_url el = false := by
                rw [hpredEq]
                simp [heq]
              simp only [detectBacklinkGo, hhref, List.find?, hpred]
              rw [if_neg hemp]
              simp only [hj, hf]
              simp only [Bool.not_true, Bool.false_eq_true, if_false]
              rw [if_neg heq]
              exact ih hrest
          · rw [Bool.not_eq_true] at hf
            have hpred : claimedBacklinkPred current_url target_url el = false := by
              rw [hpredEq, hf]
              simp
            simp only [detectBacklinkGo, hhref, List.find?, hpred]
            rw [if_neg hemp]
            simp only [hj, hf]
            simp only [Bool.not_false, if_true]
            exact ih hrest

theorem detect_is_find_first_witness :
    detect_backlink_element "https://site.example/path/page.html"
        "https://origin.example/"
        [⟨"", some "mailto:x@origin.example", none⟩,
         ⟨"", some "//origin.example", none⟩,
         ⟨"", some "https://ORIGIN.example", none⟩] =
      some (List.find?
        (claimedBacklinkPred "https://site.example/path/page.html"
          "https://origin.example/")
        [⟨"", some "mailto:x@origin.example", none⟩,
         ⟨"", some "//origin.example", none⟩,
         ⟨"", some "https://ORIGIN.example", none⟩]) :=
  detect_is_find_first "https://site.example/path/page.html"
    "https://origin.example/" _ (by decide)

/-- Invariant of the `queue_candidates_from_pivot` loop: candidates that
equal the `origin_url` argument or share the origin host are filtered
out, so any property of that shape carried by the accumulator holds of
the result. -/
theorem queueFromPivotGo_avoids_origin
    (current_url origin_url origin_host : String) (cfg : LogicConfig)
    (already_queued visited : List String) :
    ∀ (elements : List Elem) (out res : List String),
      queueFromPivotGo current_url origin_url origin_host cfg already_queued
          visited elements out = some res →
      (∀ c ∈ out, c ≠ origin_url ∧ _netloc c ≠ some origin_host) →
      ∀ c ∈ res, c ≠ origin_url ∧ _netloc c ≠ some origin_host := by
  intro elements
  induction elements with
  | nil =>
    intro out res hres hout
    simp only [queueFromPivotGo] at hres
    cases hres
    exact hout
  | cons el rest ih =>
    intro out res hres hout
    rw [queueFromPivotGo] at hres
    by_cases hfull : out.length ≥ cfg.max_outlinks
    · rw [if_pos hfull] at hres
      cases hres
      exact hout
    · rw [if_neg hfull] at hres
      cases hhref : el.href with
      | none =>
        rw [hhref] at hres
        exact ih out res hres hout
      | some href =>
        rw [hhref] at hres
        simp only at hres
        by_cases hemp : href = ""
        · rw [if_pos hemp] at hres
          exact ih out res hres hout
        · rw [if_neg hemp] at hres
          by_cases hasset : _is_asset_rel el = true
          · rw [if_pos hasset] at hres
            exact ih out res hres hout
          · rw [if_neg hasset] at hres
            cases hj : urljoin current_url href with
            | none => rw [hj] at hres; cases hres
            | some r =>
              rw [hj] at hres
              simp only at hres
              by_cases hf : (! is_fetchable_url (normalize_url r)) = true
              · rw [if_pos hf] at hres
                exact ih out res hres hout
              · rw [if_neg hf] at hres
                by_cases hw : (cfg.only_whitelist &&
                    ! is_whitelisted (normalize_url r) cfg) = true
                · rw [if_pos hw] at hres
                  exact ih out res hres hout
                · rw [if_neg hw] at hres
                  by_cases hb : (! cfg.only_whitelist &&
                      is_blacklisted (normalize_url r) cfg) = true
                  · rw [if_pos hb] at hres
                    exact ih out res hres hout
                  · rw [if_neg hb] at hres
                    by_cases hh : (! is_probably_html_url (normalize_url r)) = true
                    · rw [if_pos hh] at hres
                      exact ih out res hres hout
                    · rw [if_neg hh] at hres
                      cases hn : _netloc (normalize_url r) with
                      | none => rw [hn] at hres; cases hres
                      | some resolved_host =>
                        rw [hn] at hres
                        simp only at hres
                        by_cases horig : (normalize_url r = origin_url ∨
                            resolved_host = origin_host)
                        · rw [if_pos (by
                            rcases horig with h | h <;> simp [h])] at hres
                          exact ih out res hres hout
                        · push_neg at horig
                          rw [if_neg (by
                            simp only [Bool.or_eq_true, decide_eq_true_eq]
                            push_neg
                            exact horig)] at hres
                          by_cases hdup : (visited.contains (normalize_url r) ||
                              already_queued.contains (normalize_url r) ||
                              out.contains (normalize_url r)) = true
                          · rw [if_pos hdup] at hres
                            exact ih out res hres hout
                          · rw [if_neg hdup] at hres
                            refine ih (out ++ [normalize_url r]) res hres ?_
                            intro c hc
                            rcases List.mem_append.mp hc with hc | hc
                            · exact hout c hc
                            · rcases List.mem_singleton.mp hc with rfl
                              exact ⟨horig.1, by
                                rw [hn]
                                intro hcon
                                exact horig.2 (Option.some.inj hcon)⟩

/-- C10: every candidate returned by `queue_candidates_from_pivot`
differs from the `origin_url` argument (the crawler passes its
normalized origin URL there) and has a host different from the
origin's host — the pivot fan-out never re-enters the origin site,
whatever the same-domain policy. -/
theorem pivot_candidates_avoid_origin :
    ∀ (current_url pivot_url origin_url : String) (elements : List Elem)
      (cfg : LogicConfig) (already_queued visited : List String)
      (out : List String),
      queue_candidates_from_pivot current_url pivot_url origin_url elements
          cfg already_queued visited = some out →
      ∀ c ∈ out, c ≠ origin_url ∧ _netloc c ≠ _netloc origin_url := by
  intro current_url pivot_url origin_url elements cfg already_queued visited
    out hout
  unfold queue_candidates_from_pivot at hout
  cases hn : _netloc origin_url with
  | none => rw [hn] at hout; cases hout
  | some origin_host =>
    rw [hn] at hout
    simp only at hout
    intro c hc
    exact queueFromPivotGo_avoids_origin current_url origin_url origin_host
      cfg already_queued visited elements [] out hout (by simp) c hc

theorem pivot_candidates_avoid_origin_witness :
    "https://other.example/b" ≠ "https://origin.example" ∧
      _netloc "https://other.example/b" ≠ _netloc "https://origin.example" :=
  pivot_candidates_avoid_origin "https://pivot.example/p"
    "https://pivot.example/p" "https://origin.example"
    [⟨"", some "https://origin.example/self", none⟩,
     ⟨"", some "https://other.example/b", none⟩]
    ⟨50, [], SameDomainPolicy.follow, false, [], [], false⟩ [] []
    ["https://other.example/b"] (by decide) "https://other.example/b"
    (by decide)

theorem enqueue_fields (st : CrawlState) (u : String) (h : Nat) :
    (enqueue st u h).evidence = st.evidence ∧
    (enqueue st u h).pivot_has_backlink_to_origin =
      st.pivot_has_backlink_to_origin ∧
    (enqueue st u h).normalized_origin_url = st.normalized_origin_url := by
  simp only [enqueue]
  split_ifs <;> exact ⟨rfl, rfl, rfl⟩

theorem enqueueFold_fields (h : Nat) :
    ∀ (l : List String) (st : CrawlState),
      ((l.foldl (fun acc url => enqueue acc url h) st).evidence =
        st.evidence ∧
       (l.foldl (fun acc url => enqueue acc url h) st).pivot_has_backlink_to_origin =
        st.pivot_has_backlink_to_origin) := by
  intro l
  induction l with
  | nil => intro st; exact ⟨rfl, rfl⟩
  | cons c rest ih =>
    intro st
    rw [List.foldl_cons]
    obtain ⟨h1, h2⟩ := ih (enqueue st c h)
    obtain ⟨e1, e2, _⟩ := enqueue_fields st c h
    exact ⟨h1.trans e1, h2.trans e2⟩

/-- A fold whose step leaves `evidence` and
`pivot_has_backlink_to_origin` unchanged leaves them unchanged. -/
theorem foldPreserves (f : CrawlState → String → CrawlState)
    (hf : ∀ acc c, (f acc c).evidence = acc.evidence ∧
      (f acc c).pivot_has_backlink_to_origin =
        acc.pivot_has_backlink_to_origin) :
    ∀ (l : List String) (st : CrawlState),
      ((l.foldl f st).evidence = st.evidence ∧
       (l.foldl f st).pivot_has_backlink_to_origin =
        st.pivot_has_backlink_to_origin) := by
  intro l
  induction l with
  | nil => intro st; exact ⟨rfl, rfl⟩
  | cons c rest ih =>
    intro st
    rw [List.foldl_cons]
    obtain ⟨h1, h2⟩ := ih (f st c)
    exact ⟨h1.trans (hf st c).1, h2.trans (hf st c).2⟩

theorem fanoutStep_fields (cur : String) (h : Nat) :
    ∀ (acc : CrawlState) (c : String),
      ((enqueue (if (alookup acc.parent c).isNone then
          { acc with parent := acc.parent ++ [(c, cur)] } else acc) c h).evidence =
        acc.evidence ∧
       (enqueue (if (alookup acc.parent c).isNone then
          { acc with parent := acc.parent ++ [(c, cur)] } else acc) c h).pivot_has_backlink_to_origin =
        acc.pivot_has_backlink_to_origin) := by
  intro acc c
  obtain ⟨e1, e2, _⟩ := enqueue_fields
    (if (alookup acc.parent c).isNone then
      { acc with parent := acc.parent ++ [(c, cur)] } else acc) c h
  constructor
  · rw [e1]; split_ifs <;> rfl
  · rw [e2]; split_ifs <;> rfl

theorem processOriginBranch_fields (tldx : String → Option String)
    (cfg : LogicConfig) (st : CrawlState) (cur : String) (h : Nat)
    (els : List Elem) :
    (processOriginBranch tldx cfg st cur h els).evidence = st.evidence ∧
    (processOriginBranch tldx cfg st cur h els).pivot_has_backlink_to_origin =
      st.pivot_has_backlink_to_origin := by
  unfold processOriginBranch
  cases queue_candidates_from_origin tldx cur st.normalized_origin_url els cfg
      (st.queue.map Prod.fst) st.visited_urls with
  | none => exact ⟨rfl, rfl⟩
  | some cands => exact enqueueFold_fields (h + 1) cands st

theorem make_evidence_shape (s o : String) (h : Nat) (t : Elem)
    (cfg : LogicConfig) (n : Nat) (ev : EvidenceRecord)
    (hmk : make_evidence s o h t cfg n = some ev) :
    ev.pivot = none ∧
    (ev.classification = "strong" ∨ ev.classification = "weak") ∧
    ev.target.url = normalize_url s := by
  unfold make_evidence classify_backlink at hmk
  cases hn : _netloc s with
  | none => rw [hn] at hmk; cases hmk
  | some d =>
    rw [hn] at hmk
    simp only at hmk
    have hev := Option.some.inj hmk
    subst hev
    refine ⟨rfl, ?_, rfl⟩
    by_cases hme : (_rel_list t).contains "me" = true
    · left
      exact if_pos hme
    · right
      exact if_neg hme

theorem directAt_append (evidence l : List EvidenceRecord) (j : Nat)
    (B : String) (h : directAt evidence j B) : directAt (evidence ++ l) j B := by
  obtain ⟨r, hr, h1, h2, h3⟩ := h
  have hlt : j < evidence.length := (List.getElem?_eq_some.mp hr).1
  exact ⟨r, by rw [List.getElem?_append_left hlt]; exact hr, h1, h2, h3⟩

theorem pivotInvL_append_direct (evidence : List EvidenceRecord)
    (pc : List String) (d : EvidenceRecord) (cur : String)
    (hinv : PivotInvL evidence pc) (hp : d.pivot = none)
    (hc : d.classification = "strong" ∨ d.classification = "weak")
    (ht : d.target.url = normalize_url cur) :
    PivotInvL (evidence ++ [d]) (pc ++ [cur]) := by
  obtain ⟨h1, h2⟩ := hinv
  constructor
  · intro k r hr hind B hB
    by_cases hk : k < evidence.length
    · rw [List.getElem?_append_left hk] at hr
      obtain ⟨j, hj, hd⟩ := h1 k r hr hind B hB
      exact ⟨j, hj, directAt_append _ _ _ _ hd⟩
    · have hlen : k < (evidence ++ [d]).length := (List.getElem?_eq_some.mp hr).1
      rw [List.length_append, List.length_singleton] at hlen
      have hkeq : k = evidence.length := by omega
      subst hkeq
      rw [List.getElem?_concat_length] at hr
      have hrd := Option.some.inj hr
      subst hrd
      rw [hind] at hc
      rcases hc with hc | hc <;> exact absurd hc (by decide)
  · intro b hb
    rcases List.mem_append.mp hb with hb | hb
    · obtain ⟨j, hj, hd⟩ := h2 b hb
      refine ⟨j, ?_, directAt_append _ _ _ _ hd⟩
      rw [List.length_append, List.length_singleton]
      omega
    · rcases List.mem_singleton.mp hb with rfl
      refine ⟨evidence.length, ?_, ?_⟩
      · rw [List.length_append, List.length_singleton]; omega
      · exact ⟨d, List.getElem?_concat_length _ _, hp, hc, ht⟩

theorem pivotInvL_append_indirect (evidence : List EvidenceRecord)
    (pc : List String) (o p c : String) (h n : Nat)
    (hinv : PivotInvL evidence pc) (hp : p ∈ pc) :
    PivotInvL (evidence ++ [make_indirect_evidence o p c h n]) pc := by
  obtain ⟨h1, h2⟩ := hinv
  constructor
  · intro k r hr hind B hB
    by_cases hk : k < evidence.length
    · rw [List.getElem?_append_left hk] at hr
      obtain ⟨j, hj, hd⟩ := h1 k r hr hind B hB
      exact ⟨j, hj, directAt_append _ _ _ _ hd⟩
    · have hlen : k < (evidence ++ [make_indirect_evidence o p c h n]).length :=
        (List.getElem?_eq_some.mp hr).1
      rw [List.length_append, List.length_singleton] at hlen
      have hkeq : k = evidence.length := by omega
      subst hkeq
      rw [List.getElem?_concat_length] at hr
      have hrd := Option.some.inj hr
      subst hrd
      have hBp : B = normalize_url p := by
        have : (make_indirect_evidence o p c h n).pivot = some (normalize_url p) := rfl
        rw [this] at hB
        exact (Option.some.inj hB).symm
      subst hBp
      obtain ⟨j, hj, hd⟩ := h2 p hp
      exact ⟨j, hj, directAt_append _ _ _ _ hd⟩
  · intro b hb
    obtain ⟨j, hj, hd⟩ := h2 b hb
    refine ⟨j, ?_, directAt_append _ _ _ _ hd⟩
    rw [List.length_append, List.length_singleton]
    omega

theorem pivotInvL_congr (ev ev' : List EvidenceRecord)
    (pc pc' : List String) (he : ev = ev') (hp : pc = pc')
    (h : PivotInvL ev pc) : PivotInvL ev' pc' := he ▸ hp ▸ h

theorem processDirect_pivotInv (cfg : LogicConfig) (st : CrawlState)
    (cur : String) (hops : Nat) (els : List Elem) (tag : Option Elem)
    (hinv : PivotInvariant st) :
    PivotInvariant (processDirect cfg st cur hops els tag).1 := by
  cases tag with
  | none => exact hinv
  | some t =>
    simp only [processDirect]
    split
    · exact hinv
    · rename_i ev hmk
      obtain ⟨hp, hc, ht⟩ := make_evidence_shape _ _ _ _ _ _ _ hmk
      have hinv1 : PivotInvL (st.evidence ++ [ev])
          (st.pivot_has_backlink_to_origin ++ [cur]) :=
        pivotInvL_append_direct _ _ _ _ hinv hp hc ht
      split
      · exact hinv1
      · rename_i ns hq
        split
        · exact hinv1
        · dsimp only
          have hfold := foldPreserves _ (fanoutStep_fields cur (hops + 1)) ns
            { st with
              evidence := st.evidence ++ [ev]
              evidence_producing_urls := st.evidence_producing_urls ++ [cur]
              pivot_has_backlink_to_origin :=
                st.pivot_has_backlink_to_origin ++ [cur]
              pivot_outlinked := povAdd st.pivot_outlinked cur ns }
          exact pivotInvL_congr _ _ _ _ hfold.1.symm hfold.2.symm hinv1

theorem processIndirect_pivotInv (orm : Bool) (st1 : CrawlState)
    (cur : String) (hops : Nat) (els : List Elem)
    (hinv : PivotInvariant st1) :
    PivotInvariant (processIndirect orm st1 cur hops els) := by
  simp only [processIndirect]
  split
  · exact hinv
  · rename_i p ha
    split
    · exact hinv
    · exact hinv
    · rename_i t hd
      by_cases hpc : st1.pivot_has_backlink_to_origin.contains p = true
      · rw [if_pos hpc]
        by_cases horm : (! orm) = true
        · rw [if_pos horm]
          exact pivotInvL_append_indirect _ _ _ _ _ _ _ hinv
            (by simpa using hpc)
        · rw [if_neg horm]
          exact hinv
      · rw [if_neg hpc]
        exact hinv

theorem processPage_pivotInv (tldx : String → Option String)
    (cfg : LogicConfig) (orm : Bool) (st : CrawlState) (cur : String)
    (hops : Nat) (els : List Elem) (hinv : PivotInvariant st) :
    PivotInvariant (processPage tldx cfg orm st cur hops els) := by
  simp only [processPage]
  by_cases ho : cur = st.normalized_origin_url
  · rw [if_pos ho]
    obtain ⟨f1, f2⟩ := processOriginBranch_fields tldx cfg st cur hops els
    exact pivotInvL_congr _ _ _ _ f1.symm f2.symm hinv
  · rw [if_neg ho]
    split
    · exact hinv
    · split
      · exact processDirect_pivotInv _ _ _ _ _ _ hinv
      · exact processIndirect_pivotInv _ _ _ _ _
          (processDirect_pivotInv _ _ _ _ _ _ hinv)

theorem processUrl_pivotInv (tldx : String → Option String)
    (cfg : LogicConfig) (orm : Bool) (mh : Nat) (st : CrawlState)
    (cur : String) (hops : Nat) (page : Option (List Elem))
    (hinv : PivotInvariant st) :
    PivotInvariant (processUrl tldx cfg orm mh st cur hops page) := by
  unfold processUrl
  split_ifs with h1 h2 h3 h4 h5
  · exact hinv
  · exact hinv
  · exact hinv
  · exact hinv
  · exact hinv
  · cases page with
    | none => exact hinv
    | some els =>
      exact processPage_pivotInv _ _ _ _ _ _ _ hinv

theorem initState_pivotInv (o : String) (s : Option (List String)) :
    PivotInvariant (initState o s) := by
  have hev : (initState o s).evidence = [] := by
    unfold initState
    cases s with
    | none => rfl
    | some l => cases l <;> rfl
  have hpc : (initState o s).pivot_has_backlink_to_origin = [] := by
    unfold initState
    cases s with
    | none => rfl
    | some l => cases l <;> rfl
  unfold PivotInvariant
  rw [hev, hpc]
  constructor
  · intro k r hr
    simp at hr
  · intro b hb
    simp at hb

theorem reachable_pivotInv (tldx : String → Option String)
    (cfg : LogicConfig) (orm : Bool) (mh : Nat) (st : CrawlState)
    (hreach : Reachable tldx cfg orm mh st) : PivotInvariant st := by
  induction hreach with
  | init o s => exact initState_pivotInv o s
  | stepFetch st cur hops _ ih => exact processUrl_pivotInv _ _ _ _ _ _ _ _ ih
  | stepPage st cur hops els _ ih => exact processPage_pivotInv _ _ _ _ _ _ _ ih

/-- C6: in every reachable crawl state, every indirect evidence record
with pivot `B` is preceded strictly earlier in the evidence list by a
direct evidence record (strong or weak, produced by `make_evidence`)
whose target URL is `B` — indirect emission requires prior membership
of the pivot in `pivot_has_backlink_to_origin`, which is granted only
together with the direct-evidence append. -/
theorem indirect_evidence_preceded_by_direct :
    ∀ (tldx : String → Option String) (cfg : LogicConfig) (orm : Bool)
      (mh : Nat) (st : CrawlState),
      Reachable tldx cfg orm mh st →
      ∀ (k : Nat) (r : EvidenceRecord), st.evidence[k]? = some r →
        r.classification = "indirect" →
        ∀ B, r.pivot = some B →
          ∃ j < k, ∃ r' : EvidenceRecord, st.evidence[j]? = some r' ∧
            r'.pivot = none ∧
            (r'.classification = "strong" ∨ r'.classification = "weak") ∧
            r'.target.url = B := by
  intro tldx cfg orm mh st hreach k r hr hind B hB
  obtain ⟨j, hj, hd⟩ :=
    (reachable_pivotInv tldx cfg orm mh st hreach).1 k r hr hind B hB
  exact ⟨j, hj, hd⟩

theorem indirect_evidence_preceded_by_direct_witness :
    ∃ j < 1, ∃ r' : EvidenceRecord,
      (processPage (fun _ => none)
          ⟨50, [], SameDomainPolicy.follow, false, [], [], false⟩ false
          (processPage (fun _ => none)
            ⟨50, [], SameDomainPolicy.follow, false, [], [], false⟩ false
            (initState "https://a.example" none) "https://b.example/b" 1
            [⟨"", some "https://a.example", none⟩,
             ⟨"", some "https://c.example/c", none⟩])
          "https://c.example/c" 2
          [⟨"", some "https://b.example/b", none⟩]).evidence[j]? = some r' ∧
        r'.pivot = none ∧
        (r'.classification = "strong" ∨ r'.classification = "weak") ∧
        r'.target.url = "https://b.example/b" :=
  indirect_evidence_preceded_by_direct (fun _ => none)
    ⟨50, [], SameDomainPolicy.follow, false, [], [], false⟩ false 3 _
    (Reachable.stepPage _ "https://c.example/c" 2
      [⟨"", some "https://b.example/b", none⟩]
      (Reachable.stepPage _ "https://b.example/b" 1
        [⟨"", some "https://a.example", none⟩,
         ⟨"", some "https://c.example/c", none⟩]
        (Reachable.init "https://a.example" none)))
    1
    (make_indirect_evidence "https://a.example" "https://b.example/b"
      "https://c.example/c" 2 2)
    (by decide) (by decide) "https://b.example/b" (by decide)

theorem processUrl_none_evidence (tldx : String → Option String)
    (cfg : LogicConfig) (orm : Bool) (mh : Nat) (st : CrawlState)
    (cur : String) (hops : Nat) :
    (processUrl tldx cfg orm mh st cur hops none).evidence = st.evidence := by
  simp only [processUrl]
  split_ifs <;> rfl

theorem processIndirect_only_rel_me_evidence (st1 : CrawlState)
    (cur : String) (hops : Nat) (els : List Elem) :
    (processIndirect true st1 cur hops els).evidence = st1.evidence := by
  simp only [processIndirect]
  split
  · rfl
  · rename_i p ha
    split
    · rfl
    · rfl
    · rename_i t hd
      split_ifs with h1 h2
      · exact absurd h2 (by decide)
      · rfl
      · rfl

theorem processDirect_evidence_mem (cfg : LogicConfig) (st : CrawlState)
    (cur : String) (hops : Nat) (els : List Elem) (tag : Option Elem) :
    ∀ r ∈ (processDirect cfg st cur hops els tag).1.evidence,
      r ∈ st.evidence ∨
        (r.classification = "strong" ∨ r.classification = "weak") := by
  cases tag with
  | none => intro r hr; exact Or.inl hr
  | some t =>
    simp only [processDirect]
    split
    · intro r hr; exact Or.inl hr
    · rename_i ev hmk
      obtain ⟨hp, hc, ht⟩ := make_evidence_shape _ _ _ _ _ _ _ hmk
      have key : ∀ r ∈ st.evidence ++ [ev],
          r ∈ st.evidence ∨
            (r.classification = "strong" ∨ r.classification = "weak") := by
        intro r hr
        rcases List.mem_append.mp hr with hr | hr
        · exact Or.inl hr
        · rcases List.mem_singleton.mp hr with rfl
          exact Or.inr hc
      split
      · exact key
      · rename_i ns hq
        split
        · exact key
        · dsimp only
          have hfold := foldPreserves _ (fanoutStep_fields cur (hops + 1)) ns
            { st with
              evidence := st.evidence ++ [ev]
              evidence_producing_urls := st.evidence_producing_urls ++ [cur]
              pivot_has_backlink_to_origin :=
                st.pivot_has_backlink_to_origin ++ [cur]
              pivot_outlinked := povAdd st.pivot_outlinked cur ns }
          intro r hr
          rw [hfold.1] at hr
          exact key r hr

theorem processPage_only_rel_me_evidence_mem (tldx : String → Option String)
    (cfg : LogicConfig) (st : CrawlState) (cur : String) (hops : Nat)
    (els : List Elem) :
    ∀ r ∈ (processPage tldx cfg true st cur hops els).evidence,
      r ∈ st.evidence ∨
        (r.classification = "strong" ∨ r.classification = "weak") := by
  simp only [processPage]
  by_cases ho : cur = st.normalized_origin_url
  · rw [if_pos ho]
    intro r hr
    rw [(processOriginBranch_fields tldx cfg st cur hops els).1] at hr
    exact Or.inl hr
  · rw [if_neg ho]
    split
    · intro r hr; exact Or.inl hr
    · split
      · exact processDirect_evidence_mem _ _ _ _ _ _
      · intro r hr
        rw [processIndirect_only_rel_me_evidence] at hr
        exact processDirect_evidence_mem _ _ _ _ _ _ r hr

theorem reachable_only_rel_me_no_indirect (tldx : String → Option String)
    (cfg : LogicConfig) (mh : Nat) (st : CrawlState)
    (hreach : Reachable tldx cfg true mh st) :
    ∀ r ∈ st.evidence, r.classification ≠ "indirect" := by
  induction hreach with
  | init o s =>
    intro r hr
    have hev : (initState o s).evidence = [] := by
      unfold initState
      cases s with
      | none => rfl
      | some l => cases l <;> rfl
    rw [hev] at hr
    simp at hr
  | stepFetch st cur hops _ ih =>
    intro r hr
    rw [processUrl_none_evidence] at hr
    exact ih r hr
  | stepPage st cur hops els _ ih =>
    intro r hr
    rcases processPage_only_rel_me_evidence_mem tldx cfg st cur hops els r hr
      with h | h
    · exact ih r h
    · rcases h with h | h <;> rw [h] <;> decide

/-- C7: in `only_rel_me` mode (1) no reachable crawl state holds any
indirect evidence record, and (2) a detected direct backlink element
whose rel tokens do not contain `"me"` is discarded: the processing
step leaves the evidence list unchanged. -/
theorem only_rel_me_mode :
    (∀ (tldx : String → Option String) (cfg : LogicConfig) (mh : Nat)
        (st : CrawlState),
      Reachable tldx cfg true mh st →
      ∀ r ∈ st.evidence, r.classification ≠ "indirect") ∧
    (∀ (tldx : String → Option String) (cfg : LogicConfig) (st : CrawlState)
        (cur : String) (hops : Nat) (els : List Elem) (t : Elem),
      detect_backlink_element cur st.normalized_origin_url els =
        some (some t) →
      (_rel_list t).contains "me" = false →
      (processPage tldx cfg true st cur hops els).evidence = st.evidence) := by
  constructor
  · exact reachable_only_rel_me_no_indirect
  · intro tldx cfg st cur hops els t hdet hme
    simp only [processPage]
    by_cases ho : cur = st.normalized_origin_url
    · rw [if_pos ho]
      exact (processOriginBranch_fields tldx cfg st cur hops els).1
    · rw [if_neg ho]
      simp only [hdet, hme, Bool.not_false, Bool.true_and, if_true,
        processDirect]
      exact processIndirect_only_rel_me_evidence _ _ _ _

theorem only_rel_me_mode_witness :
    ({ id := "e-backlink-1", kind := "rel-me"
       source := { url := "https://a.example", context := "origin-page" }
       target := { url := "https://b.example/b", context := "candidate-page" }
       link := some { html := "", rel := ["me"], nofollow := false }
       classification := "strong", hops := 1, trusted_surface := false
       notes := "", pivot := none } : EvidenceRecord).classification ≠
        "indirect" ∧
    (processPage (fun _ => none)
        ⟨50, [], SameDomainPolicy.follow, false, [], [], false⟩ true
        (initState "https://a.example" none) "https://b.example/b" 1
        [⟨"", some "https://a.example", none⟩]).evidence =
      (initState "https://a.example" none).evidence :=
  ⟨only_rel_me_mode.1 (fun _ => none)
    ⟨50, [], SameDomainPolicy.follow, false, [], [], false⟩ 3 _
    (Reachable.stepPage _ "https://b.example/b" 1
      [⟨"", some "https://a.example", some ["me"]⟩]
      (Reachable.init "https://a.example" none))
    _ (by decide),
   only_rel_me_mode.2 (fun _ => none)
    ⟨50, [], SameDomainPolicy.follow, false, [], [], false⟩
    (initState "https://a.example" none) "https://b.example/b" 1
    [⟨"", some "https://a.example", none⟩]
    ⟨"", some "https://a.example", none⟩ (by decide) (by decide)⟩

end NaiveBacklink
